import Mathlib

/-!
A verification development for the path-alias resolution engine of
rollup-plugin-ts-paths-resolve (src/index.ts, the version whose matcher
stores the text before and after the wildcard of each pattern).

Strings are modelled as lists of characters (`Str`); the JavaScript string
operations used by the source (`substr`, `indexOf`, `startsWith`, `endsWith`,
`replace` with a string pattern, `match(/\x2a/g)?.length`) are embedded as
executable functions with ECMAScript clamping semantics.  The external
collaborators (`path.resolve`, `ts.resolveModuleName`, `fs.existsSync`) are
fields of an `Env` record, and the rollup `fallback.resolveId` delegation is
reified in the `Outcome` type instead of being invoked.
-/

namespace TsPathsResolve

abbrev Str := List Char

/-- Build a `Str` from a string literal. -/
def strL (s : String) : Str := s.data

/-- JS `s.indexOf(sub)` helper: index of the first occurrence of `sub` in `s`,
starting the count at `j`; `none` when `sub` does not occur. -/
def firstIndexAux (sub : Str) : Str → Nat → Option Nat
  | [], j => if sub.isPrefixOf ([] : Str) then some j else none
  | c :: t, j => if sub.isPrefixOf (c :: t) then some j else firstIndexAux sub t (j + 1)

/-- JS `s.indexOf(sub)`: character index of the first occurrence, or `-1`. -/
def jsIndexOf (s sub : Str) : Int :=
  match firstIndexAux sub s 0 with
  | some i => (i : Int)
  | none => -1

/-- JS `s.indexOf(sub) != -1`. -/
def containsSub (s sub : Str) : Bool := jsIndexOf s sub != -1

/-- JS `s.substr(start, len)` (two-argument form, ECMAScript clamping). -/
def jsSubstr2 (s : Str) (start len : Int) : Str :=
  let size : Int := s.length
  let st := if start < 0 then max (size + start) 0 else start
  (s.drop st.toNat).take (max len 0).toNat

/-- JS `s.substr(start)` (one-argument form). -/
def jsSubstr1 (s : Str) (start : Int) : Str :=
  let size : Int := s.length
  let st := if start < 0 then max (size + start) 0 else start
  s.drop st.toNat

/-- JS `s.replace(sub, rep)` with a string pattern: replaces only the first
occurrence of `sub`. -/
def jsReplaceFirst (s sub rep : Str) : Str :=
  match firstIndexAux sub s 0 with
  | none => s
  | some i => s.take i ++ rep ++ s.drop (i + sub.length)

/-- The wildcard marker `"*"` as a `Str`. -/
def starStr : Str := ['*']

/-- The segment `"node_modules/"` tested by `answer.indexOf("node_modules/") != -1`. -/
def nodeModulesStr : Str := strL "node_modules/"

/-- The substring `"@types"` tested by `target.indexOf("@types") !== -1`. -/
def atTypesStr : Str := strL "@types"

/-- The suffix `".d.ts"` tested by `target.endsWith(".d.ts")`. -/
def dtsStr : Str := strL ".d.ts"

/-- The NUL marker of `request.startsWith("\x5c0")`. -/
def nulStr : Str := [Char.ofNat 0]

/-- The `alias` field of a compiled `Mapping`.  `pre` and `suf` embed the
source's fields holding the pattern text before and after the wildcard
(their source names collide with reserved words here). -/
structure Alias where
  wildcard : Bool
  pattern : Str
  pre : Str
  suf : Str
deriving DecidableEq

/-- One compiled matcher: `interface Mapping { alias; targets }`. -/
structure Mapping where
  aliasOf : Alias
  targets : List Str
deriving DecidableEq

/-- JS `countWildcard(value) = value.match(/\x2a/g)?.length`, with the JS
comparison `undefined > 1` being false modelled by a count of `0`. -/
def countWildcard (value : Str) : Nat := value.count '*'

/-- The test `valid(value) = /(\x2a|\/\x2a|\/\x2a\/)/.test(value)`: an unanchored
search for any of the three alternatives. -/
def valid (value : Str) : Bool :=
  containsSub value starStr || containsSub value (strL "/*") || containsSub value (strL "/*/")

/-- The target filter predicate of `createMappings`. -/
def keepTarget (target : Str) : Bool :=
  if jsIndexOf target starStr != -1 && !valid target then false
  else if containsSub target atTypesStr || dtsStr.isSuffixOf target then false
  else true

/-- Compilation `createMappings`: compiles the ordered `compilerOptions.paths` table into
matchers, dropping patterns with more than one wildcard, patterns failing
`valid`, and entries whose filtered target list is empty. -/
def createMappings : List (Str × List Str) → List Mapping
  | [] => []
  | (pattern, patternTargets) :: rest =>
    if countWildcard pattern > 1 then createMappings rest
    else if jsIndexOf pattern starStr != -1 && !valid pattern then createMappings rest
    else if (patternTargets.filter keepTarget).length = 0 then createMappings rest
    else if pattern = starStr then
      { aliasOf := { wildcard := true, pattern := pattern, pre := [], suf := [] },
        targets := patternTargets.filter keepTarget } :: createMappings rest
    else
      { aliasOf := { wildcard := (jsIndexOf pattern starStr != -1), pattern := pattern,
                     pre := jsSubstr2 pattern 0 (jsIndexOf pattern starStr),
                     suf := jsSubstr1 pattern (jsIndexOf pattern starStr + 1) },
        targets := patternTargets.filter keepTarget } :: createMappings rest

/-- The wildcard-match condition of `findResolve`:
`wildcard && request.length >= prefixLen + suffixLen && startsWith && endsWith`. -/
def wildcardMatches (a : Alias) (request : Str) : Bool :=
  a.wildcard && decide (a.pre.length + a.suf.length ≤ request.length)
    && a.pre.isPrefixOf request && a.suf.isSuffixOf request

/-- The matcher-selection loop of `findResolve`, with its two accumulators
`longestMatchedPrefixLength` (initially `0`) and `matched`. -/
def findMatchedAux (request : Str) : List Mapping → Nat → Option Mapping → Option Mapping
  | [], _, matched => matched
  | m :: rest, longestLen, matched =>
    if wildcardMatches m.aliasOf request then
      if longestLen < m.aliasOf.pre.length then
        findMatchedAux request rest m.aliasOf.pre.length (some m)
      else
        findMatchedAux request rest longestLen matched
    else if request = m.aliasOf.pattern then
      some m
    else
      findMatchedAux request rest longestLen matched

/-- The matcher selected by `findResolve` for a request, or `none`. -/
def findMatched (mappings : List Mapping) (request : Str) : Option Mapping :=
  findMatchedAux request mappings 0 none

/-- The capture `matchedWildcard = request.substr(prefixLen, request.length - suffixLen)`. -/
def matchedWildcardOf (request : Str) (m : Mapping) : Str :=
  jsSubstr2 request (m.aliasOf.pre.length : Int)
    ((request.length : Int) - (m.aliasOf.suf.length : Int))

/-- The external collaborators of the engine: `compilerOptions.baseUrl`,
`path.resolve`, `ts.resolveModuleName` and `fs.existsSync`. -/
structure Env where
  baseUrl : Str
  pathResolve : Str → Str → Str
  resolveModule : Str → Str → Option Str
  fileExists : Str → Bool

/-- Substitution `predicted`: the target template after wildcard substitution
(`target.replace("*", matchedWildcard)` when the matcher is wildcarded). -/
def predicted (wildcard : Bool) (cap target : Str) : Str :=
  if wildcard then jsReplaceFirst target starStr cap else target

/-- The candidate `answer = path.resolve(compilerOptions.baseUrl, predicted)`. -/
def answerOf (env : Env) (wildcard : Bool) (cap target : Str) : Str :=
  env.pathResolve env.baseUrl (predicted wildcard cap target)

/-- One iteration of the target loop of `findResolve`: the node_modules
check, then `ts.resolveModuleName`, then `fs.existsSync`. -/
def resolveTarget (env : Env) (importer : Str) (wildcard : Bool) (cap target : Str) :
    Option (Str × Bool) :=
  let answer := answerOf env wildcard cap target
  if containsSub answer nodeModulesStr then some (answer, true)
  else
    match env.resolveModule answer importer with
    | some resolvedFileName => some (resolvedFileName, false)
    | none => if env.fileExists answer then some (answer, false) else none

/-- The target loop of `findResolve`: first target with a successful stage wins. -/
def resolveTargets (env : Env) (importer : Str) (wildcard : Bool) (cap : Str) :
    List Str → Option (Str × Bool)
  | [] => none
  | t :: ts =>
    match resolveTarget env importer wildcard cap t with
    | some r => some r
    | none => resolveTargets env importer wildcard cap ts

/-- Resolution `findResolve`: matcher selection, capture computation and the target loop;
`(\x5b"", false\x5d)` when no matcher or no target succeeds. -/
def findResolve (env : Env) (mappings : List Mapping) (request importer : Str) :
    Str × Bool :=
  match findMatched mappings request with
  | none => ([], false)
  | some matched =>
    match resolveTargets env importer matched.aliasOf.wildcard
        (matchedWildcardOf request matched) matched.targets with
    | some r => r
    | none => ([], false)

/-- The observable outcome of the rollup `resolveId` hook: return `null`,
return a path directly, or return `fallback.resolveId(specifier, importer)`. -/
inductive Outcome where
  | decline : Outcome
  | direct : Str → Outcome
  | delegate : Str → Str → Outcome
deriving DecidableEq

/-- The `resolveId` hook of the plugin. -/
def resolveId (env : Env) (mappings : List Mapping) (request : Str)
    (importer : Option Str) : Outcome :=
  match importer with
  | none => Outcome.decline
  | some imp =>
    if nulStr.isPrefixOf request then Outcome.decline
    else
      let rn := findResolve env mappings request imp
      if rn.1 ≠ [] then
        if rn.2 then Outcome.delegate rn.1 imp else Outcome.direct rn.1
      else Outcome.delegate request imp

/-- Shape invariant of compiled matchers: a wildcarded matcher's pattern is
its `pre`, the marker, then its `suf`; a non-wildcarded matcher has an empty
`pre` and its whole pattern as `suf` (from `substr(0, -1)` and `substr(0)`). -/
def WFAlias (a : Alias) : Prop :=
  (a.wildcard = true → a.pattern = a.pre ++ '*' :: a.suf) ∧
  (a.wildcard = false → a.pre = [] ∧ a.suf = a.pattern)

instance (a : Alias) : Decidable (WFAlias a) := by
  unfold WFAlias
  infer_instance

/-- The largest `pre` length among wildcard matchers whose match condition
holds for `s` (`0` when none matches). -/
def maxMatchLen (mappings : List Mapping) (s : Str) : Nat :=
  mappings.foldr
    (fun m acc => if wildcardMatches m.aliasOf s then max m.aliasOf.pre.length acc else acc) 0

/-- A concrete environment whose module resolver resolves nothing and whose
filesystem holds no file; `path.resolve` is modelled as slash-joining. -/
def trivEnv : Env :=
  { baseUrl := strL "/proj"
    pathResolve := fun b p => b ++ '/' :: p
    resolveModule := fun _ _ => none
    fileExists := fun _ => false }

/-- A concrete environment whose module resolver knows one module and whose
filesystem holds one file. -/
def demoEnv : Env :=
  { baseUrl := strL "/proj"
    pathResolve := fun b p => b ++ '/' :: p
    resolveModule := fun a _ =>
      if a = strL "/proj/./src/App" then some (strL "/proj/src/App.tsx") else none
    fileExists := fun a => a = strL "/proj/./assets/logo.svg" }

lemma isPrefixOf_append_self (l₁ l₂ : Str) : l₁.isPrefixOf (l₁ ++ l₂) = true := by
  simp [List.isPrefixOf_iff_prefix]

lemma isSuffixOf_append_self (l₁ l₂ : Str) : l₂.isSuffixOf (l₁ ++ l₂) = true := by
  simp [List.isSuffixOf_iff_suffix]

lemma firstIndexAux_spec (sub : Str) :
    ∀ (s : Str) (j i : Nat), firstIndexAux sub s j = some i →
      j ≤ i ∧ sub.isPrefixOf (s.drop (i - j)) = true := by
  intro s
  induction s with
  | nil =>
    intro j i h
    unfold firstIndexAux at h
    split at h
    · cases h
      simpa using ‹sub.isPrefixOf ([] : Str) = true›
    · cases h
  | cons c t ih =>
    intro j i h
    unfold firstIndexAux at h
    split at h
    · cases h
      simpa using ‹sub.isPrefixOf (c :: t) = true›
    · have := ih (j + 1) i h
      refine ⟨by omega, ?_⟩
      have hij : 1 ≤ i - j := by omega
      have : (c :: t).drop (i - j) = t.drop (i - (j + 1)) := by
        have : i - j = (i - (j + 1)) + 1 := by omega
        rw [this]
        simp
      rw [this]
      exact this ▸ (ih (j + 1) i h).2

lemma star_eq_of_firstIndexAux (s : Str) (i : Nat)
    (h : firstIndexAux starStr s 0 = some i) :
    s = s.take i ++ '*' :: s.drop (i + 1) := by
  have hspec := (firstIndexAux_spec starStr s 0 i h).2
  rw [Nat.sub_zero] at hspec
  rw [List.isPrefixOf_iff_prefix] at hspec
  obtain ⟨t, ht⟩ := hspec
  have hdrop : s.drop i = '*' :: t := by simpa [starStr] using ht.symm
  have htail : s.drop (i + 1) = t := by
    have : s.drop (i + 1) = (s.drop i).drop 1 := by
      rw [List.drop_drop]
    rw [this, hdrop]
    simp
  calc s = s.take i ++ s.drop i := (List.take_append_drop i s).symm
    _ = s.take i ++ '*' :: s.drop (i + 1) := by rw [hdrop, htail]

lemma jsIndexOf_eq_some (s sub : Str) (h : (jsIndexOf s sub != -1) = true) :
    ∃ i, firstIndexAux sub s 0 = some i := by
  unfold jsIndexOf at h
  rcases hfi : firstIndexAux sub s 0 with _ | i
  · rw [hfi] at h
    simp at h
  · exact ⟨i, rfl⟩

lemma jsSubstr2_zero_nat (s : Str) (i : Nat) : jsSubstr2 s 0 (i : Int) = s.take i := by
  unfold jsSubstr2
  have h1 : ((0 : Int) < 0) = False := by simp
  have h2 : (max (i : Int) 0).toNat = i := by omega
  simp [h2]

lemma jsSubstr1_nat_succ (s : Str) (i : Nat) :
    jsSubstr1 s ((i : Int) + 1) = s.drop (i + 1) := by
  unfold jsSubstr1
  have h2 : (((i : Int) + 1) < 0) = False := by
    simp
    omega
  have h3 : ((i : Int) + 1).toNat = i + 1 := by omega
  simp [h2, h3]

lemma createMappings_wf :
    ∀ (table : List (Str × List Str)), ∀ m ∈ createMappings table, WFAlias m.aliasOf := by
  intro table
  induction table with
  | nil => intro m hm; cases hm
  | cons e rest ih =>
    obtain ⟨pattern, patternTargets⟩ := e
    intro m hm
    unfold createMappings at hm
    split at hm
    · exact ih m hm
    · split at hm
      · exact ih m hm
      · split at hm
        · exact ih m hm
        · split at hm
          · rcases List.mem_cons.mp hm with h | h
            · subst h
              constructor
              · intro _
                simpa [starStr] using ‹pattern = starStr›
              · intro hfalse
                cases hfalse
            · exact ih m h
          · rcases List.mem_cons.mp hm with h | h
            · subst h
              rename_i hvalid _ _
              by_cases hw : (jsIndexOf pattern starStr != -1) = true
              · obtain ⟨i, hfi⟩ := jsIndexOf_eq_some pattern starStr hw
                have hidx : jsIndexOf pattern starStr = (i : Int) := by
                  unfold jsIndexOf
                  rw [hfi]
                constructor
                · intro _
                  show pattern = jsSubstr2 pattern 0 (jsIndexOf pattern starStr) ++
                      '*' :: jsSubstr1 pattern (jsIndexOf pattern starStr + 1)
                  rw [hidx, jsSubstr2_zero_nat, jsSubstr1_nat_succ]
                  exact star_eq_of_firstIndexAux pattern i hfi
                · intro hc
                  simp only [hw] at hc
                  cases hc
              · have hw' : jsIndexOf pattern starStr = -1 := by
                  unfold jsIndexOf at hw ⊢
                  rcases hfi : firstIndexAux starStr pattern 0 with _ | i
                  · rfl
                  · rw [hfi] at hw
                    simp at hw
                constructor
                · intro hc
                  simp only [Bool.not_eq_true] at hw
                  rw [hw] at hc
                  cases hc
                · intro _
                  constructor
                  · show jsSubstr2 pattern 0 (jsIndexOf pattern starStr) = []
                    rw [hw']
                    unfold jsSubstr2
                    simp
                  · show jsSubstr1 pattern (jsIndexOf pattern starStr + 1) = pattern
                    rw [hw']
                    unfold jsSubstr1
                    simp
            · exact ih m h

lemma wildcardMatches_self (a : Alias) (hw : a.wildcard = true)
    (hp : a.pattern = a.pre ++ '*' :: a.suf) :
    wildcardMatches a a.pattern = true := by
  unfold wildcardMatches
  rw [hw]
  simp only [Bool.true_and, Bool.and_eq_true, decide_eq_true_eq]
  refine ⟨⟨?_, ?_⟩, ?_⟩
  · rw [hp]
    simp only [List.length_append, List.length_cons]
    omega
  · rw [hp]
    exact isPrefixOf_append_self _ _
  · rw [hp, List.isSuffixOf_iff_suffix]
    exact (List.suffix_cons '*' a.suf).trans (List.suffix_append _ _)

lemma wildcard_of_wildcardMatches (a : Alias) (s : Str)
    (h : wildcardMatches a s = true) : a.wildcard = true := by
  unfold wildcardMatches at h
  simp only [Bool.and_eq_true] at h
  exact h.1.1.1

lemma matchedWildcardOf_exact (request : Str) (m : Mapping)
    (hpre : m.aliasOf.pre = []) (hsuf : m.aliasOf.suf = m.aliasOf.pattern)
    (hreq : request = m.aliasOf.pattern) :
    matchedWildcardOf request m = [] := by
  unfold matchedWildcardOf jsSubstr2
  rw [hpre, hsuf, ← hreq]
  simp

lemma findMatchedAux_exact (s : Str) :
    ∀ (ms : List Mapping) (b : Nat) (acc : Option Mapping),
      (∀ m ∈ ms, WFAlias m.aliasOf) →
      (∃ m ∈ ms, (!m.aliasOf.wildcard && decide (m.aliasOf.pattern = s)) = true) →
      findMatchedAux s ms b acc =
        ms.find? (fun m => !m.aliasOf.wildcard && decide (m.aliasOf.pattern = s)) := by
  intro ms
  induction ms with
  | nil =>
    intro b acc _ hex
    obtain ⟨m, hm, _⟩ := hex
    cases hm
  | cons m rest ih =>
    intro b acc hwf hex
    have hwfRest : ∀ x ∈ rest, WFAlias x.aliasOf :=
      fun x hx => hwf x (List.mem_cons_of_mem _ hx)
    unfold findMatchedAux
    by_cases hP : wildcardMatches m.aliasOf s = true
    · rw [if_pos hP]
      have hw : m.aliasOf.wildcard = true := wildcard_of_wildcardMatches _ _ hP
      have hmP : (!m.aliasOf.wildcard && decide (m.aliasOf.pattern = s)) = false := by
        simp [hw]
      have hex' : ∃ x ∈ rest, (!x.aliasOf.wildcard && decide (x.aliasOf.pattern = s)) = true := by
        obtain ⟨m', hm', hp'⟩ := hex
        rcases List.mem_cons.mp hm' with h | h
        · subst h
          rw [hp'] at hmP
          cases hmP
        · exact ⟨m', h, hp'⟩
      rw [List.find?_cons_of_neg _ (by simp [hmP])]
      split
      · exact ih _ _ hwfRest hex'
      · exact ih _ _ hwfRest hex'
    · rw [if_neg hP]
      by_cases heq : s = m.aliasOf.pattern
      · have hw : m.aliasOf.wildcard = false := by
          by_contra hw'
          have hw2 : m.aliasOf.wildcard = true := by
            simpa using hw'
          have hself := wildcardMatches_self m.aliasOf hw2
            ((hwf m (List.mem_cons_self m rest)).1 hw2)
          rw [← heq] at hself
          exact hP hself
        rw [if_pos heq]
        have hmP : (!m.aliasOf.wildcard && decide (m.aliasOf.pattern = s)) = true := by
          simp [hw, heq.symm]
        simp only [List.find?_cons, hmP]
      · rw [if_neg heq]
        have hmP : (!m.aliasOf.wildcard && decide (m.aliasOf.pattern = s)) = false := by
          have : m.aliasOf.pattern ≠ s := fun hc => heq hc.symm
          simp [this]
        have hex' : ∃ x ∈ rest, (!x.aliasOf.wildcard && decide (x.aliasOf.pattern = s)) = true := by
          obtain ⟨m', hm', hp'⟩ := hex
          rcases List.mem_cons.mp hm' with h | h
          · subst h
            rw [hp'] at hmP
            cases hmP
          · exact ⟨m', h, hp'⟩
        rw [List.find?_cons_of_neg _ (by simp [hmP])]
        exact ih _ _ hwfRest hex'

/-- Claim C2: when some non-wildcard matcher's pattern equals the specifier
exactly, the selection loop returns the first such matcher — ignoring any
wildcard matcher recorded earlier and every matcher after it — and the
computed capture for it is the empty string. -/
theorem exact_match_short_circuits (mappings : List Mapping) (s : Str)
    (hwf : ∀ m ∈ mappings, WFAlias m.aliasOf)
    (hex : ∃ m ∈ mappings, m.aliasOf.wildcard = false ∧ m.aliasOf.pattern = s) :
    ∃ m₀,
      mappings.find? (fun m => !m.aliasOf.wildcard && decide (m.aliasOf.pattern = s)) = some m₀ ∧
      findMatched mappings s = some m₀ ∧
      m₀.aliasOf.wildcard = false ∧ m₀.aliasOf.pattern = s ∧
      matchedWildcardOf s m₀ = [] := by
  have hex' : ∃ m ∈ mappings, (!m.aliasOf.wildcard && decide (m.aliasOf.pattern = s)) = true := by
    obtain ⟨m, hm, hw, hp⟩ := hex
    exact ⟨m, hm, by simp [hw, hp]⟩
  have hchar := findMatchedAux_exact s mappings 0 none hwf hex'
  rcases hfind : mappings.find?
      (fun m => !m.aliasOf.wildcard && decide (m.aliasOf.pattern = s)) with _ | m₀
  · obtain ⟨m, hm, hp⟩ := hex'
    have := List.find?_eq_none.mp hfind m hm
    rw [hp] at this
    cases this rfl
  · have hp₀ := List.find?_some hfind
    simp only [Bool.and_eq_true, Bool.not_eq_true', decide_eq_true_eq] at hp₀
    have hmem := List.mem_of_find?_eq_some hfind
    have hwf₀ := hwf m₀ hmem
    have hnw := (hwf₀.2 hp₀.1)
    refine ⟨m₀, hfind, ?_, hp₀.1, hp₀.2, ?_⟩
    · rw [findMatched, hchar, hfind]
    · exact matchedWildcardOf_exact s m₀ hnw.1 hnw.2 hp₀.2.symm

/-- Claim C2 witness: for the compiled table `{"~/\x2a": ..., "utils": ...}` and the
specifier `"utils"`, the exact matcher is selected with empty capture even
though the table is scanned after no wildcard matcher applies. -/
theorem exact_match_short_circuits_witness :
    ∃ m₀,
      (createMappings [(strL "~/*", [strL "./src/*"]),
        (strL "utils", [strL "./lib/utils.ts"])]).find?
          (fun m => !m.aliasOf.wildcard && decide (m.aliasOf.pattern = strL "utils")) = some m₀ ∧
      findMatched (createMappings [(strL "~/*", [strL "./src/*"]),
        (strL "utils", [strL "./lib/utils.ts"])]) (strL "utils") = some m₀ ∧
      m₀.aliasOf.wildcard = false ∧ m₀.aliasOf.pattern = strL "utils" ∧
      matchedWildcardOf (strL "utils") m₀ = [] :=
  exact_match_short_circuits _ _ (by decide) (by decide)

lemma findMatchedAux_longest (s : Str) :
    ∀ (ms : List Mapping) (b : Nat) (acc : Option Mapping),
      (∀ m ∈ ms, WFAlias m.aliasOf) →
      (∀ m ∈ ms, m.aliasOf.wildcard = false → m.aliasOf.pattern ≠ s) →
      findMatchedAux s ms b acc =
        if b < maxMatchLen ms s
        then ms.find?
          (fun m => wildcardMatches m.aliasOf s && decide (m.aliasOf.pre.length = maxMatchLen ms s))
        else acc := by
  intro ms
  induction ms with
  | nil =>
    intro b acc _ _
    simp [findMatchedAux, maxMatchLen]
  | cons m rest ih =>
    intro b acc hwf hno
    have hwfR : ∀ x ∈ rest, WFAlias x.aliasOf :=
      fun x hx => hwf x (List.mem_cons_of_mem _ hx)
    have hnoR : ∀ x ∈ rest, x.aliasOf.wildcard = false → x.aliasOf.pattern ≠ s :=
      fun x hx => hno x (List.mem_cons_of_mem _ hx)
    unfold findMatchedAux
    by_cases hP : wildcardMatches m.aliasOf s = true
    · rw [if_pos hP]
      have hM : maxMatchLen (m :: rest) s = max m.aliasOf.pre.length (maxMatchLen rest s) := by
        simp [maxMatchLen, hP]
      by_cases hb : b < m.aliasOf.pre.length
      · rw [if_pos hb, ih _ _ hwfR hnoR]
        rcases Nat.lt_or_ge m.aliasOf.pre.length (maxMatchLen rest s) with hlt | hge
        · have hM' : maxMatchLen (m :: rest) s = maxMatchLen rest s := by rw [hM]; omega
          rw [if_pos hlt, hM', if_pos (by omega)]
          have hpm : (wildcardMatches m.aliasOf s &&
              decide (m.aliasOf.pre.length = maxMatchLen rest s)) = false := by
            simp only [hP, Bool.true_and, decide_eq_false_iff_not]
            omega
          rw [List.find?_cons_of_neg _ (by simp [hpm])]
        · have hM' : maxMatchLen (m :: rest) s = m.aliasOf.pre.length := by rw [hM]; omega
          rw [if_neg (by omega), hM', if_pos hb]
          simp [List.find?_cons, hP]
      · rw [if_neg hb, ih _ _ hwfR hnoR]
        rcases Nat.lt_or_ge b (maxMatchLen rest s) with hltb | hgeb
        · have hM' : maxMatchLen (m :: rest) s = maxMatchLen rest s := by rw [hM]; omega
          rw [if_pos hltb, hM', if_pos hltb]
          have hpm : (wildcardMatches m.aliasOf s &&
              decide (m.aliasOf.pre.length = maxMatchLen rest s)) = false := by
            simp only [hP, Bool.true_and, decide_eq_false_iff_not]
            omega
          rw [List.find?_cons_of_neg _ (by simp [hpm])]
        · have hMle : maxMatchLen (m :: rest) s ≤ b := by rw [hM]; omega
          rw [if_neg (by omega), if_neg (by omega)]
    · rw [if_neg hP]
      have hPf : wildcardMatches m.aliasOf s = false := by simpa using hP
      have hne : ¬ (s = m.aliasOf.pattern) := by
        intro heq
        by_cases hw : m.aliasOf.wildcard = true
        · exact hP (heq ▸ wildcardMatches_self m.aliasOf hw
            ((hwf m (List.mem_cons_self m rest)).1 hw))
        · exact hno m (List.mem_cons_self m rest) (by simpa using hw) heq.symm
      rw [if_neg hne, ih _ _ hwfR hnoR]
      have hM' : maxMatchLen (m :: rest) s = maxMatchLen rest s := by
        simp [maxMatchLen, hPf]
      rw [hM']
      by_cases hb : b < maxMatchLen rest s
      · rw [if_pos hb, if_pos hb]
        rw [List.find?_cons_of_neg _ (by simp [hPf])]
      · rw [if_neg hb, if_neg hb]

/-- Claim C3 (amended): with no exactly-matching non-wildcard pattern, the first
wildcard matcher whose `pre` length equals the positive maximum is selected
(longest prefix wins, earlier declaration wins ties); when every matching
wildcard matcher has an empty `pre` — the scan starts at `0`, not `-1` — no
matcher is selected at all. -/
theorem longest_nonzero_prefix_wins (mappings : List Mapping) (s : Str)
    (hwf : ∀ m ∈ mappings, WFAlias m.aliasOf)
    (hnoexact : ∀ m ∈ mappings, m.aliasOf.wildcard = false → m.aliasOf.pattern ≠ s) :
    (0 < maxMatchLen mappings s →
      findMatched mappings s = mappings.find?
        (fun m => wildcardMatches m.aliasOf s &&
          decide (m.aliasOf.pre.length = maxMatchLen mappings s))) ∧
    (maxMatchLen mappings s = 0 → findMatched mappings s = none) := by
  have h := findMatchedAux_longest s mappings 0 none hwf hnoexact
  constructor
  · intro h0
    rw [findMatched, h, if_pos h0]
  · intro h0
    rw [findMatched, h, h0]
    simp

/-- Claim C3 witness: among the wildcard matchers for `"~/\x2a"` and `"~/a/\x2a"`, the
one with the longer `pre` (`"~/a/"`, declared second) is selected for the
specifier `"~/a/x"`. -/
theorem longest_nonzero_prefix_wins_witness :
    findMatched (createMappings [(strL "~/*", [strL "./b/*"]),
        (strL "~/a/*", [strL "./a/*"])]) (strL "~/a/x") =
      (createMappings [(strL "~/*", [strL "./b/*"]),
        (strL "~/a/*", [strL "./a/*"])]).find?
        (fun m => wildcardMatches m.aliasOf (strL "~/a/x") &&
          decide (m.aliasOf.pre.length =
            maxMatchLen (createMappings [(strL "~/*", [strL "./b/*"]),
              (strL "~/a/*", [strL "./a/*"])]) (strL "~/a/x"))) :=
  (longest_nonzero_prefix_wins _ _ (by decide) (by decide)).1 (by decide)

/-- Claim C3 counterexample: the compiled matchers of `"*"` and `"*x"` both match
`"fx"` with equal (empty) `pre`, yet the scan selects neither — the claim's
first-declared tie-break fails for empty prefixes. -/
theorem equal_empty_prefixes_select_none :
    (createMappings [(strL "*", [strL "a"]), (strL "*x", [strL "b"])]).length = 2 ∧
    (createMappings [(strL "*", [strL "a"]), (strL "*x", [strL "b"])]).all
      (fun m => wildcardMatches m.aliasOf (strL "fx")) = true ∧
    (createMappings [(strL "*", [strL "a"]), (strL "*x", [strL "b"])]).map
      (fun m => m.aliasOf.pre.length) = [0, 0] ∧
    findMatched (createMappings [(strL "*", [strL "a"]), (strL "*x", [strL "b"])])
      (strL "fx") = none := by
  decide

/-- Claim C4: the compiled form of the pattern `"*"` (wildcard, empty `pre` and
`suf`) matches the specifier `"foo"`, yet the scan — whose best-length
accumulator starts at `0`, not `-1` — never records it: no matcher is
selected and the request is delegated to the fallback with the original
specifier. -/
theorem star_matcher_never_selected :
    (createMappings [(strL "*", [strL "./src/*"])]).length = 1 ∧
    (createMappings [(strL "*", [strL "./src/*"])]).all
      (fun m => wildcardMatches m.aliasOf (strL "foo")) = true ∧
    findMatched (createMappings [(strL "*", [strL "./src/*"])]) (strL "foo") = none ∧
    resolveId trivEnv (createMappings [(strL "*", [strL "./src/*"])]) (strL "foo")
      (some (strL "/proj/main.ts")) =
      Outcome.delegate (strL "foo") (strL "/proj/main.ts") := by
  decide

/-- Claim C1: the capture computed for the selected matcher of `"~/\x2a.ts"` on the
specifier `"~/App.ts"` is `"App.t"`, not the middle substring `"App"`: the
second argument of `substr` is a length, but the code passes the intended end
index `request.length - suffixLen`, so a nonempty pattern suffix leaks into
the capture. -/
theorem capture_is_not_middle_substring :
    (findMatched (createMappings [(strL "~/*.ts", [strL "./src/*.ts"])])
        (strL "~/App.ts")).map (matchedWildcardOf (strL "~/App.ts")) =
      some (strL "App.t") ∧
    strL "App.t" ≠ strL "App" := by
  decide

lemma findResolve_eq_nomatch (env : Env) (mappings : List Mapping) (request imp : Str)
    (hfm : findMatched mappings request = none) :
    findResolve env mappings request imp = ([], false) := by
  unfold findResolve
  rw [hfm]

lemma findResolve_eq_match (env : Env) (mappings : List Mapping) (request imp : Str)
    (m : Mapping) (hfm : findMatched mappings request = some m) :
    findResolve env mappings request imp =
      (resolveTargets env imp m.aliasOf.wildcard
        (matchedWildcardOf request m) m.targets).getD ([], false) := by
  unfold findResolve
  rw [hfm]
  show (match resolveTargets env imp m.aliasOf.wildcard
      (matchedWildcardOf request m) m.targets with
    | some r => r
    | none => ([], false)) =
    (resolveTargets env imp m.aliasOf.wildcard
      (matchedWildcardOf request m) m.targets).getD ([], false)
  cases resolveTargets env imp m.aliasOf.wildcard (matchedWildcardOf request m) m.targets <;> rfl

lemma resolveTargets_all_none (env : Env) (imp : Str) (w : Bool) (cap : Str) :
    ∀ ts, (∀ u ∈ ts, resolveTarget env imp w cap u = none) →
      resolveTargets env imp w cap ts = none := by
  intro ts
  induction ts with
  | nil => intro _; rfl
  | cons u ts ih =>
    intro h
    have hu := h u (List.mem_cons_self u ts)
    simp only [resolveTargets, hu]
    exact ih (fun x hx => h x (List.mem_cons_of_mem _ hx))

lemma resolveTargets_first_success (env : Env) (imp : Str) (w : Bool) (cap : Str) :
    ∀ ts1 t ts2 r, (∀ u ∈ ts1, resolveTarget env imp w cap u = none) →
      resolveTarget env imp w cap t = some r →
      resolveTargets env imp w cap (ts1 ++ t :: ts2) = some r := by
  intro ts1
  induction ts1 with
  | nil =>
    intro t ts2 r _ h2
    simp only [List.nil_append, resolveTargets, h2]
  | cons u ts1 ih =>
    intro t ts2 r h1 h2
    have hu := h1 u (List.mem_cons_self u ts1)
    simp only [List.cons_append, resolveTargets, hu]
    exact ih t ts2 r (fun x hx => h1 x (List.mem_cons_of_mem _ hx)) h2

/-- Claim C5: candidate targets are tried in declaration order and the first target
with a successful stage decides the result; within one target the stages run
in order node_modules check, module resolution, file existence; when every
target fails every stage the result of the target loop — and hence of
`findResolve` for the matched pattern — is the no-match value. -/
theorem target_order_determinism (env : Env) (imp : Str) (w : Bool) (cap : Str) :
    (∀ ts1 t ts2 r, (∀ u ∈ ts1, resolveTarget env imp w cap u = none) →
      resolveTarget env imp w cap t = some r →
      resolveTargets env imp w cap (ts1 ++ t :: ts2) = some r) ∧
    (∀ ts, (∀ u ∈ ts, resolveTarget env imp w cap u = none) →
      resolveTargets env imp w cap ts = none) ∧
    (∀ t, (containsSub (answerOf env w cap t) nodeModulesStr = true →
        resolveTarget env imp w cap t = some (answerOf env w cap t, true)) ∧
      (containsSub (answerOf env w cap t) nodeModulesStr = false →
        ∀ f, env.resolveModule (answerOf env w cap t) imp = some f →
          resolveTarget env imp w cap t = some (f, false)) ∧
      (containsSub (answerOf env w cap t) nodeModulesStr = false →
        env.resolveModule (answerOf env w cap t) imp = none →
          resolveTarget env imp w cap t =
            (if env.fileExists (answerOf env w cap t)
             then some (answerOf env w cap t, false) else none))) ∧
    (∀ mappings request m, findMatched mappings request = some m →
      (∀ u ∈ m.targets,
        resolveTarget env imp m.aliasOf.wildcard (matchedWildcardOf request m) u = none) →
      findResolve env mappings request imp = ([], false)) := by
  refine ⟨resolveTargets_first_success env imp w cap,
    resolveTargets_all_none env imp w cap, ?_, ?_⟩
  · intro t
    refine ⟨?_, ?_, ?_⟩
    · intro h
      simp [resolveTarget, h]
    · intro h f hf
      simp [resolveTarget, h, hf]
    · intro h hm
      simp [resolveTarget, h, hm]
  · intro mappings request m hfm hall
    rw [findResolve_eq_match env mappings request imp m hfm,
      resolveTargets_all_none _ _ _ _ _ hall]
    rfl

/-- Claim C5 witness: with the first target failing every stage, the second target
resolving through the module resolver, and a third target present, the
result is the second target's resolution. -/
theorem target_order_determinism_witness :
    resolveTargets demoEnv (strL "/proj/main.ts") true (strL "App")
        ([strL "./missing/*"] ++ strL "./src/*" :: [strL "./other/*"]) =
      some (strL "/proj/src/App.tsx", false) :=
  (target_order_determinism demoEnv (strL "/proj/main.ts") true (strL "App")).1
    [strL "./missing/*"] (strL "./src/*") [strL "./other/*"] _ (by decide) (by decide)

lemma resolveTargets_true_contains (env : Env) (imp : Str) (w : Bool) (cap : Str) :
    ∀ ts r, resolveTargets env imp w cap ts = some (r, true) →
      containsSub r nodeModulesStr = true := by
  intro ts
  induction ts with
  | nil =>
    intro r h
    cases h
  | cons t ts ih =>
    intro r h
    unfold resolveTargets at h
    rcases ht : resolveTarget env imp w cap t with _ | p
    · rw [ht] at h
      exact ih r h
    · rw [ht] at h
      cases h
      by_cases hc : containsSub (answerOf env w cap t) nodeModulesStr = true
      · have heq : resolveTarget env imp w cap t = some (answerOf env w cap t, true) := by
          simp [resolveTarget, hc]
        rw [heq] at ht
        injection ht with ht'
        have : answerOf env w cap t = r := congrArg Prod.fst ht'
        rw [← this]
        exact hc
      · have hcf : containsSub (answerOf env w cap t) nodeModulesStr = false := by
          simpa using hc
        rcases hm : env.resolveModule (answerOf env w cap t) imp with _ | f
        · rcases hf : env.fileExists (answerOf env w cap t) with _ | _
          · simp [resolveTarget, hcf, hm, hf] at ht
          · simp [resolveTarget, hcf, hm, hf] at ht
        · simp [resolveTarget, hcf, hm] at ht

lemma findResolve_true_contains (env : Env) (mappings : List Mapping)
    (request imp r : Str) (h : findResolve env mappings request imp = (r, true)) :
    containsSub r nodeModulesStr = true := by
  rcases hfm : findMatched mappings request with _ | m
  · rw [findResolve_eq_nomatch env mappings request imp hfm] at h
    simp at h
  · rw [findResolve_eq_match env mappings request imp m hfm] at h
    rcases hrt : resolveTargets env imp m.aliasOf.wildcard
        (matchedWildcardOf request m) m.targets with _ | p
    · rw [hrt] at h
      simp at h
    · rw [hrt, Option.getD_some] at h
      subst h
      exact resolveTargets_true_contains env imp _ _ m.targets r hrt

/-- Claim C6: a candidate whose absolute path contains the node_modules segment is
turned into a package-rooted success immediately — independently of the
module resolver and the filesystem, which are never consulted — and the
engine then delegates to the fallback resolver with that candidate path, not
the original specifier, as the new specifier. -/
theorem package_rooted_always_delegated :
    (∀ (base : Str) (pr : Str → Str → Str) (rm : Str → Str → Option Str)
        (fe : Str → Bool) (imp : Str) (w : Bool) (cap t : Str),
      containsSub (pr base (predicted w cap t)) nodeModulesStr = true →
      resolveTarget ⟨base, pr, rm, fe⟩ imp w cap t =
        some (pr base (predicted w cap t), true)) ∧
    (∀ (env : Env) (mappings : List Mapping) (request imp r : Str),
      nulStr.isPrefixOf request = false →
      findResolve env mappings request imp = (r, true) →
      containsSub r nodeModulesStr = true ∧
      resolveId env mappings request (some imp) = Outcome.delegate r imp) := by
  constructor
  · intro base pr rm fe imp w cap t h
    simp [resolveTarget, answerOf, h]
  · intro env mappings request imp r hnul h
    have hcontains := findResolve_true_contains env mappings request imp r h
    refine ⟨hcontains, ?_⟩
    have hrne : r ≠ [] := by
      intro hre
      rw [hre] at hcontains
      have hfalse : containsSub ([] : Str) nodeModulesStr = false := by decide
      rw [hfalse] at hcontains
      cases hcontains
    simp [resolveId, hnul, h, hrne]

/-- Claim C6 witness: the target `"./node_modules/\x2a"` produces a candidate inside
node_modules; the per-candidate stage flags it immediately and the engine
delegates with the candidate path `"/proj/./node_modules/x"`. -/
theorem package_rooted_always_delegated_witness :
    resolveTarget trivEnv (strL "i") true (strL "x") (strL "./node_modules/*") =
      some (strL "/proj/./node_modules/x", true) ∧
    resolveId trivEnv (createMappings [(strL "~/*", [strL "./node_modules/*"])])
        (strL "~/x") (some (strL "/proj/main.ts")) =
      Outcome.delegate (strL "/proj/./node_modules/x") (strL "/proj/main.ts") :=
  ⟨package_rooted_always_delegated.1 trivEnv.baseUrl trivEnv.pathResolve
      trivEnv.resolveModule trivEnv.fileExists (strL "i") true (strL "x")
      (strL "./node_modules/*") (by decide),
   (package_rooted_always_delegated.2 trivEnv _ _ _ _ (by decide) (by decide)).2⟩

lemma resolveId_some (env : Env) (mappings : List Mapping) (request imp : Str) :
    resolveId env mappings request (some imp) =
      (if nulStr.isPrefixOf request then Outcome.decline
       else if (findResolve env mappings request imp).1 ≠ [] then
         (if (findResolve env mappings request imp).2 then
            Outcome.delegate (findResolve env mappings request imp).1 imp
          else Outcome.direct (findResolve env mappings request imp).1)
       else Outcome.delegate request imp) := rfl

/-- Claim C7 counterexample: with zero compiled matchers, a present importer and an
ordinary specifier, the hook does not decline (return null) — it delegates to
the fallback resolver with the original specifier. -/
theorem empty_mappings_not_declined :
    resolveId trivEnv (createMappings []) (strL "a") (some (strL "b")) =
      Outcome.delegate (strL "a") (strL "b") ∧
    Outcome.delegate (strL "a") (strL "b") ≠ Outcome.decline := by
  decide

/-- Claim C7 (amended): the hook declines in exactly two cases — the importer is
absent or the specifier starts with the internal NUL marker; an empty matcher
list does not decline. -/
theorem decline_iff (env : Env) (mappings : List Mapping) (request : Str)
    (importer : Option Str) :
    resolveId env mappings request importer = Outcome.decline ↔
      (importer = none ∨ nulStr.isPrefixOf request = true) := by
  cases importer with
  | none => simp [resolveId]
  | some imp =>
    by_cases hn : nulStr.isPrefixOf request = true
    · simp [resolveId_some, hn]
    · have hnf : nulStr.isPrefixOf request = false := by
        rcases hpx : nulStr.isPrefixOf request with _ | _
        · rfl
        · exact absurd hpx hn
      constructor
      · intro h
        exfalso
        rw [resolveId_some, hnf] at h
        rw [if_neg (by simp)] at h
        by_cases h1 : (findResolve env mappings request imp).1 ≠ []
        · rw [if_pos h1] at h
          by_cases h2 : (findResolve env mappings request imp).2 = true
          · rw [if_pos h2] at h
            cases h
          · rw [if_neg h2] at h
            cases h
        · rw [if_neg h1] at h
          cases h
      · intro h
        rcases h with h | h
        · cases h
        · rw [h] at hnf
          cases hnf

/-- Claim C7 amended-claim witness: an absent importer declines. -/
theorem decline_iff_witness :
    resolveId trivEnv [] (strL "q") none = Outcome.decline :=
  (decline_iff trivEnv [] (strL "q") none).mpr (Or.inl rfl)

/-- Claim C8: when the request is not declined and either no matcher applies or the
matched matcher's target loop is exhausted, the hook delegates to the
fallback resolver with the original specifier and the importer. -/
theorem nomatch_delegates_original (env : Env) (mappings : List Mapping)
    (request imp : Str)
    (hnul : nulStr.isPrefixOf request = false)
    (hcase : findMatched mappings request = none ∨
      ∃ m, findMatched mappings request = some m ∧
        resolveTargets env imp m.aliasOf.wildcard
          (matchedWildcardOf request m) m.targets = none) :
    resolveId env mappings request (some imp) = Outcome.delegate request imp := by
  have hfr : findResolve env mappings request imp = ([], false) := by
    rcases hcase with h | ⟨m, hm, hrt⟩
    · exact findResolve_eq_nomatch env mappings request imp h
    · rw [findResolve_eq_match env mappings request imp m hm, hrt]
      rfl
  rw [resolveId_some, hnul, hfr]
  simp

/-- Claim C8 witness: with one matcher for `"~/\x2a"`, the unrelated specifier
`"other"` matches nothing, and the hook delegates it unchanged. -/
theorem nomatch_delegates_original_witness :
    resolveId trivEnv (createMappings [(strL "~/*", [strL "./src/*"])]) (strL "other")
      (some (strL "/proj/main.ts")) =
      Outcome.delegate (strL "other") (strL "/proj/main.ts") :=
  nomatch_delegates_original _ _ _ _ (by decide) (Or.inl (by decide))

/-- Claim C9 counterexample: the target `"./a/\x2ab\x2a"` carries two wildcard markers,
neither isolated as its own path segment, yet compilation keeps it — only the
`".d.ts"` target is dropped — because the validity test accepts any target
containing a marker and target marker counts are never checked. -/
theorem multistar_target_survives :
    createMappings [(strL "~/*", [strL "./a/*b*", strL "x.d.ts"])] =
      [{ aliasOf := { wildcard := true, pattern := strL "~/*",
                      pre := strL "~/", suf := [] },
         targets := [strL "./a/*b*"] }] ∧
    countWildcard (strL "./a/*b*") = 2 := by
  decide

/-- Claim C9 (amended): after compilation no matcher's target list is empty or
contains a target mentioning `"@types"` or ending in `".d.ts"`; targets with
multiple or non-segment-isolated wildcard markers are not filtered out. -/
theorem compiled_targets_filtered (table : List (Str × List Str)) :
    ∀ m ∈ createMappings table, m.targets ≠ [] ∧
      ∀ t ∈ m.targets, containsSub t atTypesStr = false ∧ dtsStr.isSuffixOf t = false := by
  induction table with
  | nil =>
    intro m hm
    cases hm
  | cons e rest ih =>
    obtain ⟨pattern, patternTargets⟩ := e
    intro m hm
    have hkeep : ∀ t, keepTarget t = true →
        containsSub t atTypesStr = false ∧ dtsStr.isSuffixOf t = false := by
      intro t hk
      unfold keepTarget at hk
      split at hk
      · cases hk
      · split at hk
        · cases hk
        · rename_i hB
          constructor
          · rcases hct : containsSub t atTypesStr with _ | _
            · rfl
            · exact absurd (by simp [hct]) hB
          · rcases hst : dtsStr.isSuffixOf t with _ | _
            · rfl
            · exact absurd (by simp [hst]) hB
    unfold createMappings at hm
    split at hm
    · exact ih m hm
    · split at hm
      · exact ih m hm
      · split at hm
        · exact ih m hm
        · split at hm
          · rcases List.mem_cons.mp hm with h | h
            · subst h
              rename_i hlen _
              refine ⟨?_, ?_⟩
              · intro hnil
                have hfil : patternTargets.filter keepTarget = [] := hnil
                exact hlen (by rw [hfil]; rfl)
              · intro t ht
                exact hkeep t (List.of_mem_filter ht)
            · exact ih m h
          · rcases List.mem_cons.mp hm with h | h
            · subst h
              rename_i hlen _
              refine ⟨?_, ?_⟩
              · intro hnil
                have hfil : patternTargets.filter keepTarget = [] := hnil
                exact hlen (by rw [hfil]; rfl)
              · intro t ht
                exact hkeep t (List.of_mem_filter ht)
            · exact ih m h

/-- Claim C9 amended-claim witness: for the compiled table of the counterexample,
the surviving matcher's target list is nonempty and free of type-declaration
targets. -/
theorem compiled_targets_filtered_witness :
    ({ aliasOf := { wildcard := true, pattern := strL "~/*",
                    pre := strL "~/", suf := ([] : Str) },
       targets := [strL "./a/*b*"] } : Mapping).targets ≠ [] ∧
    ∀ t ∈ ({ aliasOf := { wildcard := true, pattern := strL "~/*",
                          pre := strL "~/", suf := ([] : Str) },
             targets := [strL "./a/*b*"] } : Mapping).targets,
      containsSub t atTypesStr = false ∧ dtsStr.isSuffixOf t = false :=
  compiled_targets_filtered [(strL "~/*", [strL "./a/*b*", strL "x.d.ts"])] _ (by decide)

lemma firstIndexAux_star_append (b : Str) :
    ∀ (a : Str), '*' ∉ a → ∀ j,
      firstIndexAux starStr (a ++ '*' :: b) j = some (j + a.length) := by
  intro a
  induction a with
  | nil =>
    intro _ j
    simp [firstIndexAux, starStr, List.isPrefixOf]
  | cons c a ih =>
    intro h j
    have hc : ¬ ('*' = c) := fun he => h (he ▸ List.mem_cons_self c a)
    rw [List.cons_append]
    unfold firstIndexAux
    rw [if_neg (by simp [starStr, List.isPrefixOf, hc])]
    rw [ih (fun hx => h (List.mem_cons_of_mem c hx)) (j + 1)]
    simp only [Option.some.injEq, List.length_cons]
    omega

/-- Claim C10: substituting the capture into a wildcarded target template replaces
only the first wildcard marker: with `a` marker-free, the template
`a ++ "\x2a" ++ b` becomes `a ++ capture ++ b`, so every marker inside `b`
survives verbatim into the predicted candidate. -/
theorem replace_substitutes_first_star_only (a b cap : Str) (h : '*' ∉ a) :
    predicted true cap (a ++ '*' :: b) = a ++ cap ++ b ∧
    (predicted true cap (a ++ '*' :: b)).count '*' = cap.count '*' + b.count '*' := by
  have hfi := firstIndexAux_star_append b a h 0
  rw [Nat.zero_add] at hfi
  have hpred : predicted true cap (a ++ '*' :: b) = a ++ cap ++ b := by
    show jsReplaceFirst (a ++ '*' :: b) starStr cap = a ++ cap ++ b
    unfold jsReplaceFirst
    rw [hfi]
    show (a ++ '*' :: b).take a.length ++ cap ++
        (a ++ '*' :: b).drop (a.length + starStr.length) = a ++ cap ++ b
    have htake : (a ++ '*' :: b).take a.length = a := List.take_left a ('*' :: b)
    have hdrop : (a ++ '*' :: b).drop (a.length + starStr.length) = b := by
      have h1 : a ++ '*' :: b = (a ++ ['*']) ++ b := by simp
      have h2 : a.length + starStr.length = (a ++ ['*']).length := by
        simp [starStr]
      rw [h1, h2]
      exact List.drop_left _ _
    rw [htake, hdrop]
  refine ⟨hpred, ?_⟩
  rw [hpred]
  have hca : a.count '*' = 0 := List.count_eq_zero.mpr h
  simp [hca]

/-- Claim C10 witness: substituting `"x"` into `"./a/\x2ab\x2a"` yields `"./a/xb\x2a"` —
the second marker remains. -/
theorem replace_substitutes_first_star_only_witness :
    predicted true (strL "x") (strL "./a/" ++ '*' :: strL "b*") =
      strL "./a/" ++ strL "x" ++ strL "b*" :=
  (replace_substitutes_first_star_only (strL "./a/") (strL "b*") (strL "x") (by decide)).1

end TsPathsResolve
